import Mathlib

/-!
Verification development for the incremental text-analysis engine
(`SpellCheckExtension` of the wordwise editor).

The definitions below are a shallow embedding of the extension:

* JavaScript strings are Lean `String` (ASCII content in all scenarios);
  `Map`/`Set` objects are association lists / lists with JS insertion-order
  semantics (`mapGet`, `mapSet`, `setAdd`).
* The extension instance's mutable fields become the record `SpellState`;
  each method becomes a state-transition function.  Asynchronous
  completions (the `await`ed analyzer calls) are modelled as separate
  events: a debounced-function body that reaches its `await` emits a
  `PendingAiRequest`, and the continuation that runs when the promise
  resolves is a separate function (`aiResultArrival`).
* ProseMirror's `tr.mapping.map` (third-party library, prosemirror-transform)
  is modelled abstractly as a function `Int → Int` wherever the extension
  consumes it, and concretely by `mapPos` (the documented `StepMap.map`
  semantics with the default `assoc = 1`) for concrete edits.  Note that
  ProseMirror's `map` always returns a document position and never returns
  `-1`; deleted positions are collapsed onto the edge of the replaced range.
-/

set_option maxRecDepth 100000

namespace Wordwise

/-! ## JavaScript primitive semantics -/

/-- JS `String.prototype.toLowerCase` restricted to ASCII, applied
code-unit-wise (all analyzed scenarios are ASCII). -/
def jsToLower (s : String) : String :=
  String.mk (s.data.map Char.toLower)

/-- JS `String.prototype.trim`: drop leading and trailing whitespace. -/
def jsTrim (s : String) : String :=
  String.mk (((s.data.dropWhile Char.isWhitespace).reverse.dropWhile
    Char.isWhitespace).reverse)

/-- JS `String.prototype.substring(a, b)`: clamp both indices into
`[0, length]`, swap when `a > b`, and return the chosen slice. -/
def jsSubstring (s : String) (a b : Int) : String :=
  let len : Int := s.data.length
  let ca := max 0 (min a len)
  let cb := max 0 (min b len)
  let lo := min ca cb
  let hi := max ca cb
  String.mk ((s.data.drop lo.toNat).take (hi - lo).toNat)

/-- JS `String.prototype.slice(a, b)` for `0 ≤ a ≤ b ≤ length`, used for
inspecting document text in the re-projection scenario. -/
def jsSlice (s : String) (a b : Nat) : String :=
  String.mk ((s.data.drop a).take (b - a))

/-- JS `String.prototype.includes(needle)`. -/
def strContains (hay needle : String) : Bool :=
  (List.range (hay.data.length + 1)).any
    (fun i => needle.data.isPrefixOf (hay.data.drop i))

/-- `str.replace(/\s+/g, m)` with a one-character replacement: every maximal
whitespace run becomes one replacement character.  The flag records whether
the previous character was part of a whitespace run. -/
def dashifyAux : Bool → List Char → List Char
  | _, [] => []
  | prevWs, c :: rest =>
    if c.isWhitespace then
      if prevWs then dashifyAux true rest
      else '-' :: dashifyAux true rest
    else c :: dashifyAux false rest

/-- `errorType.toLowerCase().replace(/\s+/g, chr(45))` as used to derive AI
rule ids. -/
def dashify (s : String) : String :=
  String.mk (dashifyAux false s.data)

/-- Wrap an integer into the signed 32-bit range, as JS `x | 0` / `x & x`. -/
def toInt32 (x : Int) : Int :=
  (x + 2 ^ 31) % 2 ^ 32 - 2 ^ 31

/-- One step of the extension's `hashText` loop:
`hash = ((hash << 5) - hash) + charCode; hash = hash & hash`.
The running hash is always a 32-bit value, so `hash << 5` is
`ToInt32(hash * 32)` and the trailing `& hash` is another `ToInt32`. -/
def hashStep (h : Int) (c : Char) : Int :=
  toInt32 (toInt32 (h * 32) - h + c.toNat)

/-- `hashText(text)`: the extension's rolling 32-bit content hash,
returned as a decimal string (`hash.toString()`). -/
def hashText (text : String) : String :=
  toString (text.data.foldl hashStep 0)

/-- JS `Map.prototype.get` on an insertion-ordered association list. -/
def mapGet {V : Type} (m : List (String × V)) (k : String) : Option V :=
  (m.find? (fun p => p.1 == k)).map Prod.snd

/-- JS `Map.prototype.set`: overwrite in place when the key exists,
append otherwise. -/
def mapSet {V : Type} (m : List (String × V)) (k : String) (v : V) :
    List (String × V) :=
  if m.any (fun p => p.1 == k) then
    m.map (fun p => if p.1 == k then (k, v) else p)
  else m ++ [(k, v)]

/-- JS `Set.prototype.add` on an insertion-ordered list. -/
def setAdd (s : List String) (w : String) : List String :=
  if s.contains w then s else s ++ [w]

/-! ## Data model (`MisspelledWord` and friends) -/

inductive ErrorCategory where
  | correctness
  | clarity
deriving DecidableEq

inductive Severity where
  | error
  | warning
  | info
deriving DecidableEq

/-- The `source` tag of a finding: `'retext' | 'ai'` (optional field). -/
inductive WordSource where
  | retext
  | ai
deriving DecidableEq

/-- `{from, to}` in document coordinates. -/
structure PosRange where
  «from» : Int
  «to» : Int
deriving DecidableEq

/-- The `MisspelledWord` interface: one finding. -/
structure MisspelledWord where
  word : String
  suggestions : List String
  position : PosRange
  category : ErrorCategory
  ruleId : String
  message : String
  severity : Severity
  source : Option WordSource
deriving DecidableEq

structure Categories where
  correctness : Bool
  clarity : Bool
deriving DecidableEq

/-- `SpellCheckOptions` after remirror merges the user options over
`defaultOptions`, so every field is present. -/
structure SpellCheckOptions where
  enabled : Bool
  debounceMs : Nat
  maxSuggestions : Nat
  categories : Categories
deriving DecidableEq

/-- One entry of `paragraphCache`. -/
structure ParagraphCacheEntry where
  hash : String
  misspelledWords : List MisspelledWord
  lastPos : Int
deriving DecidableEq

/-- One entry of `aiCache`. -/
structure AiCacheEntry where
  hash : String
  suggestions : List MisspelledWord
  timestamp : Int
deriving DecidableEq

/-- The extension instance's mutable fields.  `spellChecker` records
whether the retext processor finished loading (`this.spellChecker !== null`). -/
structure SpellState where
  options : SpellCheckOptions
  spellChecker : Bool
  ignoredWords : List String
  misspelledWords : List MisspelledWord
  aiSuggestions : List MisspelledWord
  paragraphCache : List (String × ParagraphCacheEntry)
  aiCache : List (String × AiCacheEntry)
  focusedWordId : Option String
deriving DecidableEq

/-- The payload handed to `onUpdateCallback`. -/
structure UpdatePayload where
  isLoading : Bool
  error : Option String
  misspelledWords : List MisspelledWord
  correctness : List MisspelledWord
  clarity : List MisspelledWord
deriving DecidableEq

/-- A ProseMirror document node as the extension observes it through
`doc.descendants`: type name, position, node size and `textContent`. -/
structure DocNode where
  name : String
  pos : Int
  nodeSize : Int
  text : String
deriving DecidableEq

/-- A document snapshot: its analyzable flat node list (in traversal
order) and `doc.content.size`. -/
structure Doc where
  nodes : List DocNode
  size : Int
deriving DecidableEq

def isCodeNode (n : DocNode) : Bool :=
  n.name == "codeMirror" || n.name == "codeBlock"

def isParagraphLike (n : DocNode) : Bool :=
  n.name == "paragraph" || n.name == "heading" || n.name == "blockquote"

/-! ## Category tables -/

structure CategoryInfo where
  category : ErrorCategory
  severity : Severity
deriving DecidableEq

/-- The `categoryMappings` table for retext sources. -/
def categoryMappings : List (String × CategoryInfo) :=
  [ ("retext-spell", ⟨.correctness, .error⟩),
    ("retext-contractions", ⟨.correctness, .error⟩),
    ("retext-indefinite-article", ⟨.correctness, .error⟩),
    ("retext-quotes", ⟨.correctness, .warning⟩),
    ("retext-sentence-spacing", ⟨.correctness, .warning⟩),
    ("retext-smartypants", ⟨.correctness, .info⟩),
    ("retext-simplify", ⟨.clarity, .warning⟩),
    ("retext-redundant-acronyms", ⟨.clarity, .warning⟩),
    ("retext-repeated-words", ⟨.clarity, .warning⟩),
    ("retext-readability", ⟨.clarity, .info⟩),
    ("retext-passive", ⟨.clarity, .info⟩),
    ("retext-pos", ⟨.clarity, .info⟩) ]

/-- Keyword table of `categorizeAiError`. -/
def correctnessTypes : List String :=
  [ "spelling", "punctuation", "capitalization", "grammar",
    "subject-verb agreement", "verb form", "tense", "pronoun",
    "article", "preposition" ]

/-- Keyword table of `categorizeAiError`. -/
def clarityTypes : List String :=
  [ "word choice", "clarity", "conciseness", "redundancy",
    "passive voice", "readability", "style", "flow", "coherence" ]

/-- `categorizeAiError(errorType)`. -/
def categorizeAiError (errorType : String) : ErrorCategory :=
  let lowerType := jsToLower errorType
  if correctnessTypes.any (fun t => strContains lowerType t) then .correctness
  else if clarityTypes.any (fun t => strContains lowerType t) then .clarity
  else .correctness

/-- Keyword table of `getAiErrorSeverity`. -/
def aiErrorTypes : List String :=
  [ "spelling", "grammar", "subject-verb agreement", "verb form" ]

/-- Keyword table of `getAiErrorSeverity`. -/
def aiWarningTypes : List String :=
  [ "punctuation", "word choice", "clarity", "style" ]

/-- `getAiErrorSeverity(errorType)`. -/
def getAiErrorSeverity (errorType : String) : Severity :=
  let lowerType := jsToLower errorType
  if aiErrorTypes.any (fun t => strContains lowerType t) then .error
  else if aiWarningTypes.any (fun t => strContains lowerType t) then .warning
  else .info

/-! ## Deduplication (`mergeAllSuggestions` / `mergeRetextAndAiWords`) -/

/-- The duplicate key used by both merge routines:
`(position.from, position.to, word)`. -/
def dedupeKey (w : MisspelledWord) : Int × Int × String :=
  (w.position.«from», w.position.«to», w.word)

/-- The duplicate test of the merge routines:
`w.position.from === word.position.from && w.position.to === word.position.to
&& w.word === word.word`. -/
def sameKey (a b : MisspelledWord) : Bool :=
  decide (dedupeKey a = dedupeKey b)

/-- `combined.filter((word, index, arr) => arr.findIndex(w => …) === index)`:
`orig` is the whole array (`arr`), the second argument walks the remaining
elements, `i` is the current index. -/
def jsDedupeFrom (orig : List MisspelledWord) :
    List MisspelledWord → Nat → List MisspelledWord
  | [], _ => []
  | w :: rest, i =>
    if orig.findIdx (fun v => sameKey v w) = i then
      w :: jsDedupeFrom orig rest (i + 1)
    else jsDedupeFrom orig rest (i + 1)

/-- The duplicate-removal filter shared by `mergeAllSuggestions` and
`mergeRetextAndAiWords`. -/
def jsDedupe (l : List MisspelledWord) : List MisspelledWord :=
  jsDedupeFrom l l 0

def isAiSourced (w : MisspelledWord) : Bool :=
  w.source == some WordSource.ai

/-- `mergeRetextAndAiWords(retextWords, aiWords)`. -/
def mergeRetextAndAiWords (retextWords aiWords : List MisspelledWord) :
    List MisspelledWord :=
  jsDedupe (retextWords ++ aiWords)

/-- `mergeAllSuggestions()` reading `this.misspelledWords` and
`this.aiSuggestions`. -/
def mergeAllSuggestions (misspelledWords aiSuggestions : List MisspelledWord) :
    List MisspelledWord :=
  jsDedupe ((misspelledWords.filter (fun w => !isAiSourced w)) ++ aiSuggestions)

/-- `categorizeErrors(misspelledWords)`: partition by category, keeping
order (the source pushes each word onto its category bucket in turn). -/
def categorizeErrors (ws : List MisspelledWord) :
    List MisspelledWord × List MisspelledWord :=
  (ws.filter (fun w => w.category == ErrorCategory.correctness),
   ws.filter (fun w => w.category == ErrorCategory.clarity))

/-! ## AI grammar pipeline -/

/-- The shape of one element of `checkGrammarWithAI`'s response
(`GrammarError` in `grammar-actions.ts`). -/
structure GrammarError where
  type : String
  description : String
  start : Int
  «end» : Int
  suggestion : String
deriving DecidableEq

/-- The transformation `callGptBackend` applies to the backend response
(the part of lines 315-364 after `await checkGrammarWithAI`): extract the
flagged substring, translate paragraph offsets to document coordinates with
the `+1` block-boundary offset, validate, categorize.  A thrown error or
empty response yields `[]`. -/
def callGptBackendTransform (text : String) (position : PosRange)
    (grammarErrors : List GrammarError) : List MisspelledWord :=
  if grammarErrors.length = 0 then []
  else
    grammarErrors.filterMap (fun err =>
      let extractedText := jsSubstring text err.start err.«end»
      if jsTrim extractedText = "" then none
      else
        let documentFrom := position.«from» + 1 + err.start
        let documentTo := position.«from» + 1 + err.«end»
        if documentFrom < position.«from» ∨ documentTo > position.«to» ∨
            documentFrom ≥ documentTo then none
        else
          some { word := jsSubstring text err.start err.«end»,
                 suggestions := [err.suggestion],
                 position := ⟨documentFrom, documentTo⟩,
                 category := categorizeAiError err.type,
                 ruleId := "ai-" ++ dashify (jsToLower err.type),
                 message := err.description,
                 severity := getAiErrorSeverity err.type,
                 source := some WordSource.ai })

/-- The paragraph snapshot captured by `getCurrentParagraph`. -/
structure ParagraphInfo where
  text : String
  position : PosRange
deriving DecidableEq

/-- `getCurrentParagraph(doc, cursorPos)`: the first analyzable node whose
`[pos, pos + nodeSize]` interval contains the cursor and whose trimmed text
is non-empty.  (An empty-text match stops descent but the traversal keeps
scanning following nodes, exactly like the `descendants` callback.) -/
def getCurrentParagraph (doc : Doc) (cursorPos : Int) : Option ParagraphInfo :=
  doc.nodes.foldl (fun acc n =>
    match acc with
    | some _ => acc
    | none =>
      if isCodeNode n then none
      else if isParagraphLike n ∧ cursorPos ≥ n.pos ∧
          cursorPos ≤ n.pos + n.nodeSize ∧ jsTrim n.text ≠ "" then
        some ⟨n.text, ⟨n.pos, n.pos + n.nodeSize⟩⟩
      else none) none

/-- The closure state alive across the `await` inside
`debouncedAiGrammarCheck`: the analyzed text, its paragraph position, and
the hash computed before dispatch. -/
structure PendingAiRequest where
  text : String
  position : PosRange
  textHash : String
deriving DecidableEq

/-- `5 * 60 * 1000` — the AI cache expiry. -/
def aiCacheExpiryMs : Int := 5 * 60 * 1000

/-- `processAiSuggestions(aiSuggestions)`: store the AI suggestions,
rebuild `this.misspelledWords` via `mergeAllSuggestions`, and emit the
update payload.  No `enabled` check and no content-hash check happens
here. -/
def processAiSuggestions (st : SpellState) (aiSuggestions : List MisspelledWord) :
    SpellState × UpdatePayload :=
  let allSuggestions := mergeAllSuggestions st.misspelledWords aiSuggestions
  let cats := categorizeErrors allSuggestions
  ({ st with aiSuggestions := aiSuggestions, misspelledWords := allSuggestions },
   { isLoading := false, error := none, misspelledWords := allSuggestions,
     correctness := cats.1, clarity := cats.2 })

/-- The body of `debouncedAiGrammarCheck` up to its suspension point, run
when the 300 ms debounce timer fires at time `now`: bail out when disabled
or no paragraph holds the cursor; consume a fresh matching cache entry via
`processAiSuggestions`; otherwise emit the pending backend request whose
continuation is `aiResultArrival`. -/
def debouncedAiGrammarCheckFire (st : SpellState) (doc : Doc) (cursorPos : Int)
    (now : Int) : SpellState × Option PendingAiRequest :=
  if !st.options.enabled then (st, none)
  else
    match getCurrentParagraph doc cursorPos with
    | none => (st, none)
    | some para =>
      let textHash := hashText para.text
      match mapGet st.aiCache (toString para.position.«from») with
      | some cached =>
        if cached.hash == textHash ∧ now - cached.timestamp < aiCacheExpiryMs then
          ((processAiSuggestions st cached.suggestions).1, none)
        else (st, some ⟨para.text, para.position, textHash⟩)
      | none => (st, some ⟨para.text, para.position, textHash⟩)

/-- The continuation of `debouncedAiGrammarCheck` after
`await this.callGptBackend(...)` resolves at time `now`: cache the
transformed result under the paragraph's original `from` position with the
hash captured *before* dispatch, then merge unconditionally.  The current
document content is not consulted. -/
def aiResultArrival (st : SpellState) (req : PendingAiRequest)
    (grammarErrors : List GrammarError) (now : Int) : SpellState :=
  let suggestions := callGptBackendTransform req.text req.position grammarErrors
  let cache1 := mapSet st.aiCache (toString req.position.«from»)
    ⟨req.textHash, suggestions, now⟩
  let st1 := { st with aiCache := cache1 }
  (processAiSuggestions st1 suggestions).1

/-! ## Retext spell-check path -/

/-- One `VFileMessage` produced by the retext processor, with the fields
the extension reads.  Optional fields model JS `undefined`. -/
structure RetextMessage where
  source : Option String
  ruleId : Option String
  actual : Option String
  expected : Option (List String)
  message : Option String
  column : Option Int
deriving DecidableEq

/-- JS `x || d` on an optional string: `undefined` and `""` are falsy. -/
def strOr (o : Option String) (d : String) : String :=
  match o with
  | none => d
  | some s => if s = "" then d else s

/-- Processing of one retext message inside `performSpellCheck`
(lines 668-709): category lookup with fallback, category gating, the
ignored-word guard, paragraph-to-document offset translation with the `+1`
block boundary, and position validation against `doc.content.size`. -/
def processMessage (st : SpellState) (docSize : Int) (pos : Int)
    (msg : RetextMessage) : Option MisspelledWord :=
  let source := strOr msg.source ("unknown")
  let ruleId := strOr msg.ruleId source
  let categoryInfo := (mapGet categoryMappings source).getD ⟨.correctness, .warning⟩
  let categoryEnabled :=
    match categoryInfo.category with
    | .correctness => st.options.categories.correctness
    | .clarity => st.options.categories.clarity
  let actualIgnored : Bool :=
    match msg.actual with
    | some a => a != "" && st.ignoredWords.contains (jsToLower a)
    | none => false
  if !categoryEnabled then none
  else if actualIgnored then none
  else
    let column : Int := match msg.column with
      | some c => if c ≠ 0 then c - 1 else 0
      | none => 0
    let wordStart := pos + 1 + column
    let wordLength : Int := match msg.actual with
      | some a => if a ≠ "" then a.length else 1
      | none => 1
    let wordEnd := wordStart + wordLength
    if wordStart ≥ 0 ∧ wordEnd ≤ docSize ∧ wordStart < wordEnd then
      let suggestions := (msg.expected).getD []
      let maxSuggestions := if st.options.maxSuggestions = 0 then 5
        else st.options.maxSuggestions
      some { word := (msg.actual).getD "",
             suggestions := suggestions.take maxSuggestions,
             position := ⟨wordStart, wordEnd⟩,
             category := categoryInfo.category,
             ruleId := ruleId,
             message := (msg.message).getD "",
             severity := categoryInfo.severity,
             source := some WordSource.retext }
    else none

/-- `spellChecker.process(text)` on one paragraph followed by the message
loop; `analyze` is the retext processor treated as an oracle.  A paragraph
whose processing throws contributes zero findings, which is the
`analyze _ = []` case. -/
def processParagraph (analyze : String → List RetextMessage) (st : SpellState)
    (docSize : Int) (n : DocNode) : List MisspelledWord :=
  (analyze n.text).filterMap (processMessage st docSize n.pos)

/-- The paragraph-cache key `` `${pos}-${node.type.name}` ``. -/
def cacheKeyOf (n : DocNode) : String :=
  toString n.pos ++ "-" ++ n.name

/-- `!(range.to <= pos || range.from >= nodeEnd)` over the changed ranges. -/
def intersectsChange (ranges : List PosRange) (pos nodeEnd : Int) : Bool :=
  ranges.any (fun r => !(r.«to» ≤ pos || r.«from» ≥ nodeEnd))

/-- The collection pass of `performSpellCheck` (lines 614-648): walk the
document, skip code blocks and blank paragraphs, and split analyzable
paragraphs into `paragraphsToCheck` (first component) and
`unchangedParagraphs` (second component, as `(pos, cached findings)`).
A paragraph is resolved from cache only when changed ranges were supplied,
it intersects none of them, and the cached hash matches its text. -/
def collectParagraphs (st : SpellState) (changed : Option (List PosRange)) :
    List DocNode → List DocNode × List (Int × List MisspelledWord)
  | [] => ([], [])
  | n :: rest =>
    let acc := collectParagraphs st changed rest
    if isCodeNode n then acc
    else if isParagraphLike n ∧ jsTrim n.text ≠ "" then
      match changed with
      | some ranges =>
        if !intersectsChange ranges n.pos (n.pos + n.nodeSize) then
          match mapGet st.paragraphCache (cacheKeyOf n) with
          | some cached =>
            if cached.hash == hashText n.text then
              (acc.1, (n.pos, cached.misspelledWords) :: acc.2)
            else (n :: acc.1, acc.2)
          | none => (n :: acc.1, acc.2)
        else (n :: acc.1, acc.2)
      | none => (n :: acc.1, acc.2)
    else acc

/-- `performSpellCheck(doc, changedRanges?)`: result words (cached words
of unchanged paragraphs first, then the freshly analyzed ones in order),
the updated paragraph cache (one `set` per checked paragraph, then the
keep-the-last-50 eviction once the cache exceeds 100 entries), and the
list of dispatched paragraphs (`paragraphsToCheck`, each of which is sent
to the retext processor). -/
def performSpellCheck (analyze : String → List RetextMessage) (st : SpellState)
    (doc : Doc) (changed : Option (List PosRange)) :
    List MisspelledWord × List (String × ParagraphCacheEntry) × List DocNode :=
  let pair := collectParagraphs st changed doc.nodes
  let cachedWords := pair.2.foldl (fun acc p => acc ++ p.2) []
  let newWords := pair.1.foldl
    (fun acc n => acc ++ processParagraph analyze st doc.size n) []
  let cacheAfter := pair.1.foldl
    (fun c n => mapSet c (cacheKeyOf n)
      ⟨hashText n.text, processParagraph analyze st doc.size n, n.pos⟩)
    st.paragraphCache
  let cacheFinal := if cacheAfter.length > 100 then
      cacheAfter.drop (cacheAfter.length - 50)
    else cacheAfter
  (cachedWords ++ newWords, cacheFinal, pair.1)

/-- The body of `debouncedSpellCheck` when its timer fires: bail out when
the processor is not loaded or analysis is disabled; otherwise run
`performSpellCheck` and replace `this.misspelledWords` wholesale.  The
second component is the list of dispatched paragraphs. -/
def debouncedSpellCheckFire (analyze : String → List RetextMessage)
    (st : SpellState) (doc : Doc) (changed : Option (List PosRange)) :
    SpellState × List DocNode :=
  if !st.spellChecker || !st.options.enabled then (st, [])
  else
    let r := performSpellCheck analyze st doc changed
    ({ st with misspelledWords := r.1, paragraphCache := r.2.1 }, r.2.2)

/-! ## Position re-projection -/

/-- `{...word, position: {from: mapping.map(word.position.from),
to: mapping.map(word.position.to)}}`. -/
def remapWord (m : Int → Int) (w : MisspelledWord) : MisspelledWord :=
  { w with position := ⟨m w.position.«from», m w.position.«to»⟩ }

/-- The survivor filter of `updateCachedPositions`:
`from !== -1 && to !== -1 && from < to`. -/
def survivesMapping (w : MisspelledWord) : Bool :=
  w.position.«from» != -1 && w.position.«to» != -1 &&
    decide (w.position.«from» < w.position.«to»)

/-- The loop body of `updateCachedPositions` over the paragraph cache:
re-project one entry's findings and keep the entry unless a non-empty
finding list was entirely wiped out. -/
def remapCacheStep (m : Int → Int)
    (acc : List (String × ParagraphCacheEntry))
    (kv : String × ParagraphCacheEntry) :
    List (String × ParagraphCacheEntry) :=
  let updatedWords := (kv.2.misspelledWords.map (remapWord m)).filter
    survivesMapping
  if updatedWords.length > 0 ∨ kv.2.misspelledWords.length = 0 then
    mapSet acc kv.1 { kv.2 with misspelledWords := updatedWords }
  else acc

/-- `updateCachedPositions(mapping)` (lines 537-592): re-project every
cached paragraph's findings (dropping entries whose words all vanish
unless they were already empty), re-project `aiSuggestions`, re-project
the retext part of `misspelledWords`, and rebuild `misspelledWords` via
`mergeRetextAndAiWords`. -/
def updateCachedPositions (m : Int → Int) (st : SpellState) : SpellState :=
  let updatedCache := st.paragraphCache.foldl (remapCacheStep m) []
  let ai1 := (st.aiSuggestions.map (remapWord m)).filter survivesMapping
  let retextWords := ((st.misspelledWords.filter
    (fun w => !isAiSourced w)).map (remapWord m)).filter survivesMapping
  { st with paragraphCache := updatedCache,
            aiSuggestions := ai1,
            misspelledWords := mergeRetextAndAiWords retextWords ai1 }

/-- `StepMap.map(pos)` of prosemirror-transform for a single replace step
`[from, to) ↦ insert` characters, with the default `assoc = 1`
(modelled from the library the extension calls through `tr.mapping`):
positions before the step are unchanged, positions after it shift by the
size delta, and positions inside the replaced span collapse to its start
(`pos == from` on a non-empty deletion) or to the end of the inserted
content.  The result is always a position — never a `-1` sentinel. -/
def mapPos (e : PosRange) (insert : Int) (pos : Int) : Int :=
  if pos < e.«from» then pos
  else if pos ≤ e.«to» then
    if e.«from» < e.«to» ∧ pos = e.«from» then e.«from»
    else e.«from» + insert
  else pos + insert - (e.«to» - e.«from»)

/-- The document-change slice of the plugin's `apply` hook
(lines 786-837): while disabled everything is skipped and the decoration
set is empty; on `tr.docChanged` the cached positions are updated *first*
and only then are the (debounced) spell check and AI grammar check
scheduled.  The booleans record whether each check was scheduled. -/
def pluginApplyDocChanged (st : SpellState) (m : Int → Int)
    (docChanged : Bool) : SpellState × Bool × Bool :=
  if !st.options.enabled then (st, false, false)
  else if docChanged then (updateCachedPositions m st, true, true)
  else (st, false, false)

/-! ## Presentation: decorations and focus -/

/-- The wordId format shared by `buildDecorations` and
`findWordIdByPosition`: `` `${word}-${position.from}-${ruleId}-${index}` ``. -/
def mkWordId (word : String) (fromPos : Int) (ruleId : String) (index : Nat) :
    String :=
  word ++ "-" ++ toString fromPos ++ "-" ++ ruleId ++ "-" ++ toString index

/-- One `Decoration.inline` with the attributes the extension sets. -/
structure InlineDecoration where
  «from» : Int
  «to» : Int
  wordId : String
  focused : Bool
  category : ErrorCategory
deriving DecidableEq

/-- The `map`-with-index over `this.misspelledWords` inside
`buildDecorations` followed by the `!== null` filter: a finding whose
range is out of bounds, inverted or empty yields `null` and is skipped. -/
def buildDecorationsFrom (focusedWordId : Option String) (docSize : Int) :
    List MisspelledWord → Nat → List InlineDecoration
  | [], _ => []
  | w :: rest, i =>
    if w.position.«from» < 0 ∨ w.position.«to» > docSize ∨
        w.position.«from» ≥ w.position.«to» then
      buildDecorationsFrom focusedWordId docSize rest (i + 1)
    else
      let wordId := mkWordId w.word w.position.«from» w.ruleId i
      { «from» := w.position.«from», «to» := w.position.«to»,
        wordId := wordId,
        focused := focusedWordId == some wordId,
        category := w.category } ::
        buildDecorationsFrom focusedWordId docSize rest (i + 1)

/-- `buildDecorations(doc)` (lines 743-777): empty when disabled or when
there are no findings, else one inline decoration per valid finding. -/
def buildDecorations (st : SpellState) (docSize : Int) : List InlineDecoration :=
  if !st.options.enabled ∨ st.misspelledWords.length = 0 then []
  else buildDecorationsFrom st.focusedWordId docSize st.misspelledWords 0

/-- The spec's range-validity predicate `0 <= from < to <= documentLength`
— the complement of the skip condition inside `buildDecorations`. -/
def validRange (docSize : Int) (w : MisspelledWord) : Bool :=
  decide (0 ≤ w.position.«from») &&
    decide (w.position.«from» < w.position.«to») &&
    decide (w.position.«to» ≤ docSize)

/-- The scan loop of `findWordIdByPosition`, carrying the running index. -/
def findWordIdFrom (pos : Int) : List MisspelledWord → Nat → Option String
  | [], _ => none
  | w :: rest, i =>
    if pos ≥ w.position.«from» ∧ pos ≤ w.position.«to» then
      some (mkWordId w.word w.position.«from» w.ruleId i)
    else findWordIdFrom pos rest (i + 1)

/-- `findWordIdByPosition(pos)`: the id of the first finding (in store
order) whose closed interval `[from, to]` contains `pos`. -/
def findWordIdByPosition (words : List MisspelledWord) (pos : Int) :
    Option String :=
  findWordIdFrom pos words 0

/-- `handleCursorChange(pos)`: recompute the focused word id (`none` when
`pos < 0`), and only when it differs from the current focus update the
state and fire `onFocusChangeCallback` (second component `some id?`). -/
def handleCursorChange (st : SpellState) (pos : Int) :
    SpellState × Option (Option String) :=
  let wordId := if pos ≥ 0 then findWordIdByPosition st.misspelledWords pos
    else none
  if wordId ≠ st.focusedWordId then
    ({ st with focusedWordId := wordId }, some wordId)
  else (st, none)

/-! ## Sidebar commands -/

/-- `ignoreWord(word)` (lines 881-893): lower-case the word into the
ignore set and synchronously drop every finding whose text matches
case-insensitively. -/
def ignoreWord (st : SpellState) (word : String) : SpellState :=
  { st with
      ignoredWords := setAdd st.ignoredWords (jsToLower word),
      misspelledWords := st.misspelledWords.filter
        (fun mw => jsToLower mw.word ≠ jsToLower word) }

/-- `toggleSpellCheck()` (lines 903-927): flip `enabled`; when turning
off, clear the finding store and emit the zero-findings update payload.
`aiSuggestions` and both caches are left as they are. -/
def toggleSpellCheck (st : SpellState) : SpellState × Option UpdatePayload :=
  let enabled := !st.options.enabled
  let st1 := { st with options := { st.options with enabled := enabled } }
  if !enabled then
    ({ st1 with misspelledWords := [] },
     some { isLoading := false, error := none, misspelledWords := [],
            correctness := [], clarity := [] })
  else (st1, none)

/-! ## Concrete scenarios -/

/-- The options remirror installs from `defaultOptions`. -/
def defaultOptions : SpellCheckOptions := ⟨true, 500, 5, ⟨true, true⟩⟩

/-- A freshly mounted, enabled extension with a loaded processor. -/
def initialState : SpellState :=
  ⟨defaultOptions, true, [], [], [], [], [], none⟩

def tehText : String := "Teh cat sat"

def theText : String := "The cat sat"

/-- A document holding one paragraph `"Teh cat sat"` (node size 13 =
text length 11 plus the two node boundaries). -/
def tehDoc : Doc := ⟨[⟨"paragraph", 0, 13, tehText⟩], 13⟩

/-- The same document after the paragraph was edited to `"The cat sat"`. -/
def theDoc : Doc := ⟨[⟨"paragraph", 0, 13, theText⟩], 13⟩

/-- The backend response flagging `"Teh"` (offsets 0-3 of the paragraph
text) as a spelling error. -/
def tehGrammarError : GrammarError :=
  ⟨"spelling", "Misspelling of The", 0, 3, "The"⟩

/-- The pending AI request dispatched for `"Teh cat sat"`. -/
def staleReq : PendingAiRequest := ⟨tehText, ⟨0, 13⟩, hashText tehText⟩

/-- The pending AI request dispatched for `"The cat sat"`. -/
def freshReq : PendingAiRequest := ⟨theText, ⟨0, 13⟩, hashText theText⟩

/-- The finding `callGptBackend` builds from `tehGrammarError`:
document range `[1, 4)` (paragraph offset 0-3 plus the `+1` boundary). -/
def tehFinding : MisspelledWord :=
  ⟨"Teh", ["The"], ⟨1, 4⟩, .correctness, "ai-spelling",
   "Misspelling of The", .error, some .ai⟩

/-- The edit turning `"Teh"` into `"The"`: replace document range `[2, 4)`
(the characters `"eh"`) with 2 new characters. -/
def tehEditMap : Int → Int := mapPos ⟨2, 4⟩ 2

/-- C1 trace, step 2: the edit lands while the request is in flight. -/
def c1StateAfterEdit : SpellState :=
  (pluginApplyDocChanged initialState tehEditMap true).1

/-- C1 trace, step 3: the stale result for `"Teh cat sat"` arrives. -/
def c1StateAfterStale : SpellState :=
  aiResultArrival c1StateAfterEdit staleReq [tehGrammarError] 2000

/-- C1 trace, steps 4-5: the debounced re-check for the edited text is
dispatched (cache miss — the cached hash is the stale one) and resolves
with no errors. -/
def c1StateRefreshed : SpellState :=
  aiResultArrival (debouncedAiGrammarCheckFire c1StateAfterStale theDoc 1 3000).1
    freshReq [] 4000

def tehWord : String := "Teh"

/-- C3 trace: the user ignores `"Teh"`. -/
def c3State : SpellState := ignoreWord initialState tehWord

/-- C3 trace: an AI analysis pass over `"Teh cat sat"` completes after
the ignore. -/
def c3StateAfterAi : SpellState :=
  aiResultArrival c3State staleReq [tehGrammarError] 2000

/-- The finding of the spec's re-projection test:
`{text: "wrold", from: 6, to: 11}`. -/
def wroldFinding : MisspelledWord :=
  ⟨"wrold", [], ⟨6, 11⟩, .correctness, "retext-spell",
   "wrold is misspelled", .error, some .retext⟩

def helloDoc : String := "Hello wrold today"

/-- `helloDoc` after inserting the 5 characters `"Hey, "` at position 0. -/
def helloDocAfterInsert : String := "Hey, Hello wrold today"

/-- The mapping of an edit inserting 5 characters at position 0. -/
def insertAtStart : Int → Int := mapPos ⟨0, 0⟩ 5

/-- A state holding `wroldFinding` both live and in a cache entry. -/
def c4State : SpellState :=
  { initialState with
      misspelledWords := [wroldFinding],
      paragraphCache := [("0-paragraph", ⟨hashText helloDoc, [wroldFinding], 0⟩)] }

def c4StateAfter : SpellState := updateCachedPositions insertAtStart c4State

/-- A state holding just the live `wroldFinding`. -/
def c5State : SpellState := { initialState with misspelledWords := [wroldFinding] }

/-- Deleting exactly the span `[6, 11)`. -/
def deleteExactSpan : Int → Int := mapPos ⟨6, 11⟩ 0

/-- Deleting the span `[5, 8)`, which removes the finding's `from`
endpoint (position 6 lies strictly inside the deleted span). -/
def deleteOverlapping : Int → Int := mapPos ⟨5, 8⟩ 0

def tehCat : String := "Teh cat"

/-- A document holding one paragraph `"Teh cat"`. -/
def c6Doc : Doc := ⟨[⟨"paragraph", 0, 9, tehCat⟩], 9⟩

/-- A state whose paragraph cache already holds a matching-hash entry for
that paragraph. -/
def c6State : SpellState :=
  { initialState with paragraphCache := [("0-paragraph", ⟨hashText tehCat, [], 0⟩)] }

/-- A retext oracle returning no messages. -/
def noAnalyze : String → List RetextMessage := fun _ => []

/-- C8 trace: analysis toggled off right after the AI request for
`"Teh cat sat"` was dispatched. -/
def c8Disabled : SpellState := (toggleSpellCheck initialState).1

/-- C8 trace: the in-flight result arrives while analysis is disabled. -/
def c8AfterArrival : SpellState :=
  aiResultArrival c8Disabled staleReq [tehGrammarError] 2000

/-- `wroldFinding` shifted through the 5-character insertion. -/
def shiftedWrold : MisspelledWord := { wroldFinding with position := ⟨11, 16⟩ }

/-- A retext message flagging `"Xyz"` at column 1 of a paragraph. -/
def c3Msg : RetextMessage :=
  { source := some ("retext-spell"), ruleId := none, actual := some ("Xyz"),
    expected := some [("Xy")], message := none, column := some 1 }

/-- The finding `processMessage` builds from `c3Msg` for a paragraph at
position 0 in a size-20 document. -/
def c3FreshFinding : MisspelledWord :=
  ⟨"Xyz", ["Xy"], ⟨1, 4⟩, .correctness, "retext-spell", "", .error,
   some .retext⟩

/-- The single paragraph node of `c6Doc`. -/
def c6Node : DocNode := ⟨"paragraph", 0, 9, tehCat⟩

/-- The cache entry `c6State` holds for that paragraph. -/
def c6Entry : ParagraphCacheEntry := ⟨hashText tehCat, [], 0⟩

/-- A changed range far away from the paragraph of `c6Doc`. -/
def c6FarRange : PosRange := ⟨20, 21⟩

/-- A list with an exact duplicate, for exercising the deduplication. -/
def c7List : List MisspelledWord := [tehFinding, tehFinding, wroldFinding]

/-- A retext-sourced finding carrying the same `(from, to, word)` key as
the AI-sourced `tehFinding`. -/
def clashRetext : MisspelledWord :=
  { tehFinding with source := some WordSource.retext, ruleId := "retext-spell" }

/-- First-occurrence deduplication in explicit recursive form: walk the
list once, remembering every key seen so far. -/
def keepFirstSeen (seen : List (Int × Int × String)) :
    List MisspelledWord → List MisspelledWord
  | [] => []
  | w :: rest =>
    if dedupeKey w ∈ seen then keepFirstSeen (seen ++ [dedupeKey w]) rest
    else w :: keepFirstSeen (seen ++ [dedupeKey w]) rest

theorem sameKey_self (w : MisspelledWord) : sameKey w w = true := by
  simp [sameKey]

theorem sameKey_eq_true_iff {a b : MisspelledWord} :
    sameKey a b = true ↔ dedupeKey a = dedupeKey b := by
  simp [sameKey]

/-- The `filter((word, index, arr) => arr.findIndex(…) === index)` idiom
is first-occurrence deduplication: an element survives exactly when no
earlier element of the whole array carries its key. -/
theorem jsDedupeFrom_eq_keepFirstSeen :
    ∀ (rest pre : List MisspelledWord),
      jsDedupeFrom (pre ++ rest) rest pre.length =
        keepFirstSeen (pre.map dedupeKey) rest := by
  intro rest
  induction rest with
  | nil => intro pre; simp [jsDedupeFrom, keepFirstSeen]
  | cons w ws ih =>
    intro pre
    have hcond : ((pre ++ w :: ws).findIdx (fun v => sameKey v w) = pre.length)
        ↔ dedupeKey w ∉ pre.map dedupeKey := by
      rw [List.findIdx_append]
      by_cases hany : ∃ x ∈ pre, sameKey x w = true
      · have hlt : (pre.findIdx fun v => sameKey v w) < pre.length :=
          List.findIdx_lt_length.mpr hany
        rw [if_pos hlt]
        constructor
        · intro h; omega
        · intro hnot
          exfalso
          obtain ⟨x, hx, hsk⟩ := hany
          exact hnot (List.mem_map.mpr ⟨x, hx,
            (sameKey_eq_true_iff.mp hsk)⟩)
      · have hall : ∀ x ∈ pre, (fun v => sameKey v w) x = false := by
          intro x hx
          cases hsk : sameKey x w
          · exact hsk
          · exact absurd ⟨x, hx, hsk⟩ hany
        have heq : (pre.findIdx fun v => sameKey v w) = pre.length :=
          List.findIdx_eq_length.mpr hall
        rw [if_neg (by omega)]
        have hhead : ((w :: ws).findIdx fun v => sameKey v w) = 0 := by
          simp [List.findIdx_cons, sameKey_self]
        rw [hhead]
        constructor
        · intro _ hmem
          obtain ⟨x, hx, hkey⟩ := List.mem_map.mp hmem
          have : sameKey x w = true := sameKey_eq_true_iff.mpr hkey
          have := hall x hx
          simp_all
        · intro _; omega
    have hsplit : pre ++ w :: ws = (pre ++ [w]) ++ ws := by simp
    have hlen : pre.length + 1 = (pre ++ [w]).length := by simp
    show jsDedupeFrom (pre ++ w :: ws) (w :: ws) pre.length = _
    rw [jsDedupeFrom, keepFirstSeen]
    by_cases hc : (pre ++ w :: ws).findIdx (fun v => sameKey v w) = pre.length
    · rw [if_pos hc]
      have hnot : dedupeKey w ∉ pre.map dedupeKey := hcond.mp hc
      rw [if_neg hnot]
      congr 1
      rw [hsplit, hlen, ih (pre ++ [w])]
      simp
    · rw [if_neg hc]
      have hmem : dedupeKey w ∈ pre.map dedupeKey := by
        by_contra hnot
        exact hc (hcond.mpr hnot)
      rw [if_pos hmem]
      rw [hsplit, hlen, ih (pre ++ [w])]
      simp

/-- `jsDedupe` computes first-occurrence deduplication. -/
theorem jsDedupe_eq_keepFirstSeen (l : List MisspelledWord) :
    jsDedupe l = keepFirstSeen [] l := by
  have := jsDedupeFrom_eq_keepFirstSeen l []
  simpa [jsDedupe] using this

theorem keepFirstSeen_sublist :
    ∀ (l : List MisspelledWord) (seen : List (Int × Int × String)),
      (keepFirstSeen seen l).Sublist l := by
  intro l
  induction l with
  | nil => intro seen; simp [keepFirstSeen]
  | cons w ws ih =>
    intro seen
    rw [keepFirstSeen]
    by_cases h : dedupeKey w ∈ seen
    · rw [if_pos h]
      exact (ih (seen ++ [dedupeKey w])).trans (List.sublist_cons_self w ws)
    · rw [if_neg h]
      exact List.Sublist.cons₂ w (ih (seen ++ [dedupeKey w]))

theorem mem_keepFirstSeen :
    ∀ (l : List MisspelledWord) (seen : List (Int × Int × String))
      (w : MisspelledWord), w ∈ keepFirstSeen seen l →
        w ∈ l ∧ dedupeKey w ∉ seen := by
  intro l
  induction l with
  | nil => intro seen w h; simp [keepFirstSeen] at h
  | cons y ys ih =>
    intro seen w h
    rw [keepFirstSeen] at h
    by_cases hy : dedupeKey y ∈ seen
    · rw [if_pos hy] at h
      obtain ⟨hmem, hnot⟩ := ih (seen ++ [dedupeKey y]) w h
      exact ⟨List.mem_cons_of_mem y hmem, fun hs => hnot (by simp [hs])⟩
    · rw [if_neg hy] at h
      rcases List.mem_cons.mp h with heq | htail
      · exact ⟨by simp [heq], by rw [heq]; exact hy⟩
      · obtain ⟨hmem, hnot⟩ := ih (seen ++ [dedupeKey y]) w htail
        exact ⟨List.mem_cons_of_mem y hmem, fun hs => hnot (by simp [hs])⟩

theorem keepFirstSeen_pairwise :
    ∀ (l : List MisspelledWord) (seen : List (Int × Int × String)),
      (keepFirstSeen seen l).Pairwise
        (fun a b => dedupeKey a ≠ dedupeKey b) := by
  intro l
  induction l with
  | nil => intro seen; simp [keepFirstSeen]
  | cons y ys ih =>
    intro seen
    rw [keepFirstSeen]
    by_cases hy : dedupeKey y ∈ seen
    · rw [if_pos hy]; exact ih (seen ++ [dedupeKey y])
    · rw [if_neg hy]
      refine List.Pairwise.cons ?_ (ih (seen ++ [dedupeKey y]))
      intro b hb
      have := (mem_keepFirstSeen ys (seen ++ [dedupeKey y]) b hb).2
      intro heq
      exact this (by simp [heq])

/-- A word whose key avoids `seen ++ [dedupeKey y]` cannot share a key
with `y`. -/
theorem sameKey_false_of_not_seen {y w : MisspelledWord}
    {seen : List (Int × Int × String)}
    (h : dedupeKey w ∉ seen ++ [dedupeKey y]) : sameKey y w = false := by
  cases hsk : sameKey y w
  · rfl
  · exact absurd (by simp [(sameKey_eq_true_iff.mp hsk).symm]) h

theorem keepFirstSeen_find?_self :
    ∀ (l : List MisspelledWord) (seen : List (Int × Int × String))
      (w : MisspelledWord), w ∈ keepFirstSeen seen l →
        l.find? (fun v => sameKey v w) = some w := by
  intro l
  induction l with
  | nil => intro seen w h; simp [keepFirstSeen] at h
  | cons y ys ih =>
    intro seen w h
    rw [keepFirstSeen] at h
    by_cases hy : dedupeKey y ∈ seen
    · rw [if_pos hy] at h
      have hkey : dedupeKey w ∉ seen ++ [dedupeKey y] :=
        (mem_keepFirstSeen ys (seen ++ [dedupeKey y]) w h).2
      rw [List.find?_cons]
      simp only [sameKey_false_of_not_seen hkey]
      exact ih (seen ++ [dedupeKey y]) w h
    · rw [if_neg hy] at h
      rcases List.mem_cons.mp h with heq | htail
      · subst heq
        rw [List.find?_cons]
        simp [sameKey_self]
      · have hkey : dedupeKey w ∉ seen ++ [dedupeKey y] :=
          (mem_keepFirstSeen ys (seen ++ [dedupeKey y]) w htail).2
        rw [List.find?_cons]
        simp only [sameKey_false_of_not_seen hkey]
        exact ih (seen ++ [dedupeKey y]) w htail

theorem keepFirstSeen_first_mem :
    ∀ (l : List MisspelledWord) (seen : List (Int × Int × String))
      (w : MisspelledWord), w ∈ l → dedupeKey w ∉ seen →
        ∃ u, l.find? (fun v => sameKey v w) = some u ∧
          u ∈ keepFirstSeen seen l := by
  intro l
  induction l with
  | nil => intro seen w h; simp at h
  | cons y ys ih =>
    intro seen w hmem hnot
    rw [keepFirstSeen]
    by_cases hsk : sameKey y w = true
    · have hykey : dedupeKey y = dedupeKey w := sameKey_eq_true_iff.mp hsk
      have hy : dedupeKey y ∉ seen := by rw [hykey]; exact hnot
      rw [if_neg hy]
      refine ⟨y, ?_, List.mem_cons_self y _⟩
      rw [List.find?_cons]
      simp [hsk]
    · have hne : sameKey y w = false := by
        cases h : sameKey y w
        · rfl
        · exact absurd h hsk
      have hwys : w ∈ ys := by
        rcases List.mem_cons.mp hmem with heq | h
        · subst heq; exact absurd (sameKey_self w) (by simp [hne])
        · exact h
      have hkeyne : dedupeKey y ≠ dedupeKey w := fun h =>
        hsk (sameKey_eq_true_iff.mpr h)
      have hnot2 : dedupeKey w ∉ seen ++ [dedupeKey y] := by
        intro h
        rcases List.mem_append.mp h with h | h
        · exact hnot h
        · have heq : dedupeKey w = dedupeKey y := by simpa using h
          exact hkeyne heq.symm
      obtain ⟨u, hfind, humem⟩ := ih (seen ++ [dedupeKey y]) w hwys hnot2
      refine ⟨u, ?_, ?_⟩
      · rw [List.find?_cons]; simp only [hne]; exact hfind
      · by_cases hy : dedupeKey y ∈ seen
        · rw [if_pos hy]; exact humem
        · rw [if_neg hy]; exact List.mem_cons_of_mem y humem

/-! ## jsDedupe corollaries and generic helpers -/

theorem jsDedupe_sublist (l : List MisspelledWord) : (jsDedupe l).Sublist l := by
  rw [jsDedupe_eq_keepFirstSeen]
  exact keepFirstSeen_sublist l []

theorem mem_jsDedupe {l : List MisspelledWord} {w : MisspelledWord}
    (h : w ∈ jsDedupe l) : w ∈ l :=
  (jsDedupe_sublist l).subset h

theorem jsDedupe_pairwise (l : List MisspelledWord) :
    (jsDedupe l).Pairwise (fun a b => dedupeKey a ≠ dedupeKey b) := by
  rw [jsDedupe_eq_keepFirstSeen]
  exact keepFirstSeen_pairwise l []

theorem jsDedupe_find?_self {l : List MisspelledWord} {w : MisspelledWord}
    (h : w ∈ jsDedupe l) : l.find? (fun v => sameKey v w) = some w := by
  rw [jsDedupe_eq_keepFirstSeen] at h
  exact keepFirstSeen_find?_self l [] w h

theorem jsDedupe_first_mem {l : List MisspelledWord} {w : MisspelledWord}
    (h : w ∈ l) :
    ∃ u, l.find? (fun v => sameKey v w) = some u ∧ u ∈ jsDedupe l := by
  rw [jsDedupe_eq_keepFirstSeen]
  exact keepFirstSeen_first_mem l [] w h (by simp)

/-- Membership after a JS `Map.set`: either an untouched entry or the
entry that was written. -/
theorem mem_mapSet {V : Type} {m : List (String × V)} {k : String} {v : V}
    {p : String × V} (h : p ∈ mapSet m k v) : p ∈ m ∨ p = (k, v) := by
  unfold mapSet at h
  by_cases hk : m.any (fun q => q.1 == k)
  · rw [if_pos hk] at h
    obtain ⟨q, hq, heq⟩ := List.mem_map.mp h
    by_cases hq1 : q.1 == k
    · right; rw [if_pos hq1] at heq; exact heq.symm
    · left; rw [if_neg hq1] at heq; exact heq ▸ hq
  · rw [if_neg hk] at h
    rcases List.mem_append.mp h with h | h
    · exact Or.inl h
    · exact Or.inr (by simpa using h)

/-- Membership in an accumulate-by-append fold. -/
theorem mem_foldl_append {α β : Type} (f : α → List β) :
    ∀ (l : List α) (init : List β) (x : β),
      x ∈ l.foldl (fun acc p => acc ++ f p) init ↔
        x ∈ init ∨ ∃ p ∈ l, x ∈ f p := by
  intro l
  induction l with
  | nil => intro init x; simp
  | cons a as ih =>
    intro init x
    rw [List.foldl_cons, ih]
    simp only [List.mem_append, List.mem_cons]
    constructor
    · rintro (⟨h | h⟩ | ⟨p, hp, hx⟩)
      · exact Or.inl h
      · exact Or.inr ⟨a, Or.inl rfl, h⟩
      · exact Or.inr ⟨p, Or.inr hp, hx⟩
    · rintro (h | ⟨p, rfl | hp, hx⟩)
      · exact Or.inl (Or.inl h)
      · exact Or.inl (Or.inr hx)
      · exact Or.inr ⟨p, hp, hx⟩

/-- Every entry of the re-projected paragraph cache is a re-projected
original entry. -/
theorem updateCachedPositions_cache_shape (m : Int → Int) (st : SpellState) :
    ∀ kv ∈ (updateCachedPositions m st).paragraphCache,
      ∃ kv0 ∈ st.paragraphCache,
        kv = (kv0.1, { kv0.2 with
          misspelledWords := (kv0.2.misspelledWords.map (remapWord m)).filter
            survivesMapping }) := by
  have main : ∀ (cache acc : List (String × ParagraphCacheEntry)),
      (∀ kv ∈ acc, ∃ kv0 ∈ st.paragraphCache,
        kv = (kv0.1, { kv0.2 with
          misspelledWords := (kv0.2.misspelledWords.map (remapWord m)).filter
            survivesMapping })) →
      (∀ kv ∈ cache, kv ∈ st.paragraphCache) →
      ∀ kv ∈ cache.foldl (remapCacheStep m) acc,
        ∃ kv0 ∈ st.paragraphCache,
          kv = (kv0.1, { kv0.2 with
            misspelledWords := (kv0.2.misspelledWords.map (remapWord m)).filter
              survivesMapping }) := by
    intro cache
    induction cache with
    | nil => intro acc hacc _ kv hkv; exact hacc kv hkv
    | cons e rest ih =>
      intro acc hacc hsub kv hkv
      rw [List.foldl_cons] at hkv
      refine ih (remapCacheStep m acc e) ?_ (fun q hq => hsub q (by simp [hq]))
        kv hkv
      intro q hq
      unfold remapCacheStep at hq
      by_cases hcond : ((e.2.misspelledWords.map (remapWord m)).filter
          survivesMapping).length > 0 ∨ e.2.misspelledWords.length = 0
      · rw [if_pos hcond] at hq
        rcases mem_mapSet hq with h | h
        · exact hacc q h
        · exact ⟨e, hsub e (by simp), h⟩
      · rw [if_neg hcond] at hq
        exact hacc q hq
  intro kv hkv
  exact main st.paragraphCache [] (by simp) (fun q hq => hq) kv hkv

/-! ## Claim C1 — stale-result suppression -/

/-- C1 (counterexample): the claimed stale-result suppression does not
happen.  Dispatch the AI analysis for the paragraph `"Teh cat sat"`
(cache miss, so the pending request is emitted), edit the block to
`"The cat sat"` while the request is in flight, and let the stale result
arrive: `aiResultArrival` performs no hash re-check, so the finding store
*does* contain a finding for `"Teh"` — the stale result was merged, not
discarded. -/
theorem c1_stale_result_counterexample :
    (debouncedAiGrammarCheckFire initialState tehDoc 1 1000).2 = some staleReq ∧
    c1StateAfterStale.misspelledWords = [tehFinding] ∧
    tehFinding.word = tehWord := by
  decide

/-- C1 (amended): a stale AI result is merged unconditionally on arrival
(the continuation caches it under the pre-dispatch hash and calls
`processAiSuggestions` without comparing against the live document); the
stale `"Teh"` finding is removed only when the edit-triggered re-analysis
of `"The cat sat"` is dispatched (the cached hash no longer matches, so
the cache is bypassed) and its result replaces the AI suggestion set. -/
theorem c1_stale_result_amended :
    debouncedAiGrammarCheckFire initialState tehDoc 1 1000 =
      (initialState, some staleReq) ∧
    c1StateAfterStale.misspelledWords = [tehFinding] ∧
    (mapGet c1StateAfterStale.aiCache (toString (0 : Int))).map
      (fun e => e.hash) = some (hashText tehText) ∧
    (debouncedAiGrammarCheckFire c1StateAfterStale theDoc 1 3000).2 =
      some freshReq ∧
    c1StateRefreshed.misspelledWords = [] := by
  decide

/-! ## Claim C3 — ignore list -/

/-- C3 (counterexample): `ignoreWord("Teh")` puts `"teh"` in the ignore
set, yet a subsequent AI analysis pass over `"Teh cat sat"` re-adds a
finding whose text matches the ignore set case-insensitively —
`callGptBackend` never consults `ignoredWords`. -/
theorem c3_ignore_counterexample :
    c3State.ignoredWords = [jsToLower tehWord] ∧
    (debouncedAiGrammarCheckFire c3State tehDoc 1 1000).2 = some staleReq ∧
    c3StateAfterAi.misspelledWords = [tehFinding] ∧
    c3State.ignoredWords.contains (jsToLower tehFinding.word) = true := by
  decide

/-! ## Claim C5 — deletion handling -/

/-- C5: evaluation of `updateCachedPositions` on the spec's deletion
scenarios.  Deleting exactly the span `[6, 11)` collapses the finding's
range to the empty `[6, 6)` and the `from < to` filter removes it, as the
claim demands.  But deleting `[5, 8)` — which deletes the finding's
`from` endpoint (position 6 lies strictly inside the deleted span) —
keeps the finding at the fabricated range `[5, 8)`: ProseMirror's
`mapping.map` collapses deleted positions onto the edge of the deletion
and never returns `-1`, so the code's `mapped to -1` filter never fires. -/
theorem c5_deletion_behaviour :
    (updateCachedPositions deleteExactSpan c5State).misspelledWords = [] ∧
    deleteOverlapping 6 = 5 ∧
    deleteOverlapping 11 = 8 ∧
    (updateCachedPositions deleteOverlapping c5State).misspelledWords =
      [{ wroldFinding with position := ⟨5, 8⟩ }] := by
  decide

/-! ## Claim C6 — cache-hit short-circuit -/

/-- C6 (counterexample): a block whose content hash is unchanged relative
to its cache entry is still dispatched when the changed ranges intersect
it: `performSpellCheck` consults the paragraph cache only for paragraphs
that do *not* intersect a changed range.  Here the cache holds a
matching-hash entry for the paragraph, yet the paragraph appears in the
dispatched list. -/
theorem c6_cache_hit_counterexample :
    (mapGet c6State.paragraphCache
      (cacheKeyOf ⟨"paragraph", 0, 9, tehCat⟩)).map (fun e => e.hash) =
        some (hashText tehCat) ∧
    (performSpellCheck noAnalyze c6State c6Doc (some [⟨1, 2⟩])).2.2 =
      [⟨"paragraph", 0, 9, tehCat⟩] := by
  decide

/-! ## Claim C8 — disable toggle -/

/-- C8 (counterexample): toggling analysis off clears the store, but a
result already in flight still merges its findings after the toggle:
`processAiSuggestions` runs without an `enabled` check, so with analysis
disabled the finding store becomes non-empty again. -/
theorem c8_disable_counterexample :
    (debouncedAiGrammarCheckFire initialState tehDoc 1 1000).2 = some staleReq ∧
    c8Disabled.options.enabled = false ∧
    c8Disabled.misspelledWords = [] ∧
    c8AfterArrival.options.enabled = false ∧
    c8AfterArrival.misspelledWords = [tehFinding] := by
  decide

/-! ## Claim C2 — decoration validity -/

theorem validRange_iff (docSize : Int) (w : MisspelledWord) :
    validRange docSize w = true ↔
      ¬(w.position.«from» < 0 ∨ w.position.«to» > docSize ∨
        w.position.«from» ≥ w.position.«to») := by
  simp only [validRange, Bool.and_eq_true, decide_eq_true_eq]
  constructor
  · rintro ⟨⟨h1, h2⟩, h3⟩
    push_neg
    exact ⟨by omega, by omega, by omega⟩
  · intro h
    push_neg at h
    exact ⟨⟨by omega, by omega⟩, by omega⟩

theorem buildDecorationsFrom_bounds (focus : Option String) (docSize : Int) :
    ∀ (words : List MisspelledWord) (i : Nat) (d : InlineDecoration),
      d ∈ buildDecorationsFrom focus docSize words i →
      0 ≤ d.«from» ∧ d.«from» < d.«to» ∧ d.«to» ≤ docSize := by
  intro words
  induction words with
  | nil => intro i d h; simp [buildDecorationsFrom] at h
  | cons w rest ih =>
    intro i d h
    rw [buildDecorationsFrom] at h
    by_cases hc : w.position.«from» < 0 ∨ w.position.«to» > docSize ∨
        w.position.«from» ≥ w.position.«to»
    · rw [if_pos hc] at h
      exact ih (i + 1) d h
    · rw [if_neg hc] at h
      rcases List.mem_cons.mp h with heq | ht
      · push_neg at hc
        subst heq
        exact ⟨hc.1, hc.2.2, hc.2.1⟩
      · exact ih (i + 1) d ht

theorem buildDecorationsFrom_length (focus : Option String) (docSize : Int) :
    ∀ (words : List MisspelledWord) (i : Nat),
      (buildDecorationsFrom focus docSize words i).length =
        (words.filter (validRange docSize)).length := by
  intro words
  induction words with
  | nil => intro i; simp [buildDecorationsFrom]
  | cons w rest ih =>
    intro i
    rw [buildDecorationsFrom, List.filter_cons]
    by_cases hc : w.position.«from» < 0 ∨ w.position.«to» > docSize ∨
        w.position.«from» ≥ w.position.«to»
    · have hval : validRange docSize w = false := by
        cases hv : validRange docSize w
        · rfl
        · exact absurd hc ((validRange_iff docSize w).mp hv)
      rw [if_pos hc, hval]
      simpa using ih (i + 1)
    · have hval : validRange docSize w = true := (validRange_iff docSize w).mpr hc
      rw [if_neg hc, hval]
      simpa using ih (i + 1)

/-- C2: every inline decoration ever built satisfies
`0 ≤ from < to ≤ documentLength` — `buildDecorations` silently skips any
finding whose range is out of bounds, inverted or empty (it is a total
function, so it never throws) — and, when analysis is enabled, it emits
exactly one decoration per remaining valid finding. -/
theorem c2_decoration_validity :
    ∀ (st : SpellState) (docSize : Int),
      (∀ d ∈ buildDecorations st docSize,
        0 ≤ d.«from» ∧ d.«from» < d.«to» ∧ d.«to» ≤ docSize) ∧
      (st.options.enabled = true →
        (buildDecorations st docSize).length =
          (st.misspelledWords.filter (validRange docSize)).length) := by
  intro st docSize
  constructor
  · intro d hd
    unfold buildDecorations at hd
    split at hd
    · simp at hd
    · exact buildDecorationsFrom_bounds st.focusedWordId docSize
        st.misspelledWords 0 d hd
  · intro hen
    unfold buildDecorations
    split
    · rename_i hcond
      rcases hcond with h | h
      · rw [hen] at h; simp at h
      · rw [List.length_eq_zero.mp h]
        simp
    · exact buildDecorationsFrom_length st.focusedWordId docSize
        st.misspelledWords 0

/-- Witness for C2 at a concrete enabled state: the single in-bounds
finding yields exactly one decoration. -/
theorem c2_decoration_validity_witness :
    (buildDecorations c5State 20).length =
      (c5State.misspelledWords.filter (validRange 20)).length :=
  (c2_decoration_validity c5State 20).2 rfl

/-! ## Claim C10 — focus lookup -/

theorem findWordIdFrom_none_iff :
    ∀ (words : List MisspelledWord) (pos : Int) (k : Nat),
      findWordIdFrom pos words k = none ↔
        ∀ w ∈ words,
          ¬(w.position.«from» ≤ pos ∧ pos ≤ w.position.«to») := by
  intro words
  induction words with
  | nil => intro pos k; simp [findWordIdFrom]
  | cons w rest ih =>
    intro pos k
    rw [findWordIdFrom]
    by_cases hc : pos ≥ w.position.«from» ∧ pos ≤ w.position.«to»
    · rw [if_pos hc]
      constructor
      · intro h; exact absurd h (by simp)
      · intro h
        exact absurd hc (h w (List.mem_cons_self w rest))
    · rw [if_neg hc]
      rw [ih pos (k + 1)]
      constructor
      · intro h v hv
        rcases List.mem_cons.mp hv with heq | ht
        · subst heq; exact hc
        · exact h v ht
      · intro h v hv
        exact h v (List.mem_cons_of_mem w hv)

theorem findWordIdFrom_first :
    ∀ (words : List MisspelledWord) (pos : Int) (i k : Nat)
      (h : i < words.length),
      (∀ j (hj : j < words.length), j < i →
        ¬((words.get ⟨j, hj⟩).position.«from» ≤ pos ∧
          pos ≤ (words.get ⟨j, hj⟩).position.«to»)) →
      ((words.get ⟨i, h⟩).position.«from» ≤ pos ∧
        pos ≤ (words.get ⟨i, h⟩).position.«to») →
      findWordIdFrom pos words k =
        some (mkWordId (words.get ⟨i, h⟩).word
          (words.get ⟨i, h⟩).position.«from»
          (words.get ⟨i, h⟩).ruleId (k + i)) := by
  intro words
  induction words with
  | nil => intro pos i k h; simp at h
  | cons w rest ih =>
    intro pos i k h hbefore hhit
    cases i with
    | zero =>
      rw [findWordIdFrom]
      rw [if_pos (by exact hhit)]
      rfl
    | succ i' =>
      have hw : ¬(w.position.«from» ≤ pos ∧ pos ≤ w.position.«to») := by
        have := hbefore 0 (by simp) (Nat.succ_pos i')
        simpa using this
      rw [findWordIdFrom, if_neg hw]
      have h' : i' < rest.length := by simpa using h
      have := ih pos i' (k + 1) h'
        (fun j hj hji => by
          have := hbefore (j + 1) (by simpa using Nat.succ_lt_succ hj)
            (Nat.succ_lt_succ hji)
          simpa using this)
        (by simpa using hhit)
      rw [this]
      have harith : k + 1 + i' = k + (i' + 1) := by omega
      rw [harith]
      simp

/-- C10: for every position `pos ≥ 0`, `findWordIdByPosition` returns the
key of the first finding in store order whose *closed* interval
`[from, to]` contains `pos` (so a cursor exactly at a finding's end
offset still focuses it) and `none` when no finding's interval contains
`pos`; `handleCursorChange` fires the focus callback only when the
computed key differs from the current focus, so repeating it at the same
position is a no-op. -/
theorem c10_focus_lookup :
    ∀ (st : SpellState) (pos : Int), 0 ≤ pos →
      (findWordIdByPosition st.misspelledWords pos = none ↔
        ∀ w ∈ st.misspelledWords,
          ¬(w.position.«from» ≤ pos ∧ pos ≤ w.position.«to»)) ∧
      (∀ i (h : i < st.misspelledWords.length),
        (∀ j (hj : j < st.misspelledWords.length), j < i →
          ¬((st.misspelledWords.get ⟨j, hj⟩).position.«from» ≤ pos ∧
            pos ≤ (st.misspelledWords.get ⟨j, hj⟩).position.«to»)) →
        ((st.misspelledWords.get ⟨i, h⟩).position.«from» ≤ pos ∧
          pos ≤ (st.misspelledWords.get ⟨i, h⟩).position.«to») →
        findWordIdByPosition st.misspelledWords pos =
          some (mkWordId (st.misspelledWords.get ⟨i, h⟩).word
            (st.misspelledWords.get ⟨i, h⟩).position.«from»
            (st.misspelledWords.get ⟨i, h⟩).ruleId i)) ∧
      ((handleCursorChange st pos).2 = none ↔
        findWordIdByPosition st.misspelledWords pos = st.focusedWordId) ∧
      (handleCursorChange (handleCursorChange st pos).1 pos =
        ((handleCursorChange st pos).1, none)) := by
  intro st pos hpos
  have hge : pos ≥ 0 := hpos
  refine ⟨findWordIdFrom_none_iff st.misspelledWords pos 0, ?_, ?_, ?_⟩
  · intro i h hbefore hhit
    have := findWordIdFrom_first st.misspelledWords pos i 0 h hbefore hhit
    simpa [findWordIdByPosition] using this
  · by_cases hne : findWordIdByPosition st.misspelledWords pos ≠
        st.focusedWordId
    · simp [handleCursorChange, hge, hne]
    · push_neg at hne
      simp [handleCursorChange, hge, hne]
  · by_cases hne : findWordIdByPosition st.misspelledWords pos ≠
        st.focusedWordId
    · simp [handleCursorChange, hge, hne]
    · push_neg at hne
      simp [handleCursorChange, hge, hne]

/-- Witness for C10: in a store holding `wroldFinding` at `[6, 11]`, the
cursor exactly at the end offset 11 still focuses that finding (index 0). -/
theorem c10_focus_lookup_witness :
    findWordIdByPosition c5State.misspelledWords 11 =
      some (mkWordId wroldFinding.word wroldFinding.position.«from»
        wroldFinding.ruleId 0) :=
  (c10_focus_lookup c5State 11 (by decide)).2.1 0 (by decide)
    (fun j hj hji => absurd hji (by omega)) (by decide)

/-- A freshly created retext finding with non-empty text is never built
from a word in the ignore set: the message loop skips it. -/
theorem processMessage_respects_ignore :
    ∀ (st : SpellState) (docSize pos : Int) (msg : RetextMessage)
      (w : MisspelledWord),
      processMessage st docSize pos msg = some w → w.word ≠ "" →
      st.ignoredWords.contains (jsToLower w.word) = false := by
  intro st docSize pos msg w h hw
  obtain ⟨src, rid, actual, expected, msgText, column⟩ := msg
  cases actual with
  | none =>
    exfalso
    apply hw
    simp only [processMessage] at h
    split at h
    · exact absurd h (by simp)
    · split at h
      · exact absurd h (by simp)
      · split at h
        · have hrec := Option.some.inj h
          rw [← hrec]
          rfl
        · exact absurd h (by simp)
  | some a =>
    simp only [processMessage] at h
    split at h
    · exact absurd h (by simp)
    · split at h
      · exact absurd h (by simp)
      · rename_i hignored
        have hword : w.word = a := by
          split at h <;> (try split at h) <;>
            first
              | (rw [← Option.some.inj h]; rfl)
              | exact absurd h (by simp)
        have ha : a ≠ "" := by rw [hword] at hw; exact hw
        cases hcon : st.ignoredWords.contains (jsToLower a)
        · rw [hword]; exact hcon
        · exfalso
          have hmem : jsToLower a ∈ st.ignoredWords := by simpa using hcon
          exact hignored (by simp [bne_iff_ne, ha, hmem])

/-! ## Claim C3 (amended theorem) -/

/-- C3 (amended): `ignoreWord` stores the lower-cased word and
synchronously removes exactly the case-insensitively matching findings,
and a freshly analyzed retext finding with non-empty text never matches
the ignore set — in particular, after `ignoreWord(w)` no retext message
can recreate a finding for `w`.  AI-sourced findings (and findings
restored from the paragraph cache) are *not* checked against the ignore
set; see the counterexample. -/
theorem c3_ignore_amended :
    ∀ (st : SpellState) (word : String),
      (ignoreWord st word).ignoredWords.contains (jsToLower word) = true ∧
      (∀ v ∈ (ignoreWord st word).misspelledWords,
        v ∈ st.misspelledWords ∧ jsToLower v.word ≠ jsToLower word) ∧
      (∀ v ∈ st.misspelledWords, jsToLower v.word ≠ jsToLower word →
        v ∈ (ignoreWord st word).misspelledWords) ∧
      (∀ docSize pos msg w,
        processMessage st docSize pos msg = some w → w.word ≠ "" →
        st.ignoredWords.contains (jsToLower w.word) = false) ∧
      (∀ docSize pos msg w,
        processMessage (ignoreWord st word) docSize pos msg = some w →
        w.word ≠ "" → jsToLower w.word ≠ jsToLower word) := by
  intro st word
  have hcontains :
      (ignoreWord st word).ignoredWords.contains (jsToLower word) = true := by
    show (setAdd st.ignoredWords (jsToLower word)).contains
      (jsToLower word) = true
    unfold setAdd
    by_cases h : st.ignoredWords.contains (jsToLower word) = true
    · rw [if_pos h]; exact h
    · rw [if_neg h]; simp
  refine ⟨hcontains, ?_, ?_, ?_, ?_⟩
  · intro v hv
    unfold ignoreWord at hv
    have := List.mem_filter.mp hv
    exact ⟨this.1, of_decide_eq_true this.2⟩
  · intro v hv hne
    unfold ignoreWord
    exact List.mem_filter.mpr ⟨hv, decide_eq_true hne⟩
  · exact processMessage_respects_ignore st
  · intro docSize pos msg w h hw heq
    have hfalse := processMessage_respects_ignore (ignoreWord st word)
      docSize pos msg w h hw
    rw [heq] at hfalse
    rw [hcontains] at hfalse
    exact Bool.true_eq_false.mp hfalse

/-- Witness for C3 (amended): in the state where `"Teh"` is ignored, the
retext message for `"Xyz"` still produces its finding, and its text
cannot match the ignored word. -/
theorem c3_ignore_amended_witness :
    processMessage c3State 20 0 c3Msg = some c3FreshFinding ∧
    jsToLower c3FreshFinding.word ≠ jsToLower tehWord :=
  ⟨by decide,
   (c3_ignore_amended initialState tehWord).2.2.2.2 20 0 c3Msg
     c3FreshFinding (by decide) (by decide)⟩

/-! ## Claim C4 — re-projection through edits -/

/-- C4: re-projection shifts findings correctly.  Concretely, for the
document `"Hello wrold today"` with the finding
`{text: "wrold", from: 6, to: 11}`, an edit inserting 5 characters at
position 0 re-projects the finding to `{from: 11, to: 16}` — both in the
live store and inside the cache entry — and the new document's slice
`[11, 16)` is still `"wrold"`.  Generally, `updateCachedPositions` maps
every surviving finding of every store (paragraph cache, AI suggestions,
live store) through the edit mapping, and the plugin's document-change
path runs it *before* scheduling any new analysis. -/
theorem c4_reprojection :
    (remapWord insertAtStart wroldFinding = shiftedWrold ∧
     c4StateAfter.misspelledWords = [shiftedWrold] ∧
     (mapGet c4StateAfter.paragraphCache ("0-paragraph")).map
       (fun e => e.misspelledWords) = some [shiftedWrold] ∧
     jsSlice helloDocAfterInsert 11 16 = wroldFinding.word) ∧
    (∀ (m : Int → Int) (st : SpellState),
      (∀ kv ∈ (updateCachedPositions m st).paragraphCache,
        ∃ kv0 ∈ st.paragraphCache,
          kv = (kv0.1, { kv0.2 with
            misspelledWords := (kv0.2.misspelledWords.map (remapWord m)).filter
              survivesMapping })) ∧
      (∀ w ∈ (updateCachedPositions m st).aiSuggestions,
        ∃ w0 ∈ st.aiSuggestions, w = remapWord m w0) ∧
      (∀ w ∈ (updateCachedPositions m st).misspelledWords,
        ∃ w0 ∈ st.misspelledWords ++ st.aiSuggestions,
          w = remapWord m w0)) ∧
    (∀ (st : SpellState) (m : Int → Int), st.options.enabled = true →
      pluginApplyDocChanged st m true =
        (updateCachedPositions m st, true, true)) := by
  refine ⟨by decide, ?_, ?_⟩
  · intro m st
    refine ⟨updateCachedPositions_cache_shape m st, ?_, ?_⟩
    · intro w hw
      simp only [updateCachedPositions] at hw
      obtain ⟨hmap, _⟩ := List.mem_filter.mp hw
      obtain ⟨w0, hw0, heq⟩ := List.mem_map.mp hmap
      exact ⟨w0, hw0, heq.symm⟩
    · intro w hw
      simp only [updateCachedPositions, mergeRetextAndAiWords] at hw
      have hw2 := mem_jsDedupe hw
      rcases List.mem_append.mp hw2 with h | h
      · obtain ⟨hmap, _⟩ := List.mem_filter.mp h
        obtain ⟨w0, hw0, heq⟩ := List.mem_map.mp hmap
        have hw0m : w0 ∈ st.misspelledWords := (List.mem_filter.mp hw0).1
        exact ⟨w0, List.mem_append.mpr (Or.inl hw0m), heq.symm⟩
      · obtain ⟨hmap, _⟩ := List.mem_filter.mp h
        obtain ⟨w0, hw0, heq⟩ := List.mem_map.mp hmap
        exact ⟨w0, List.mem_append.mpr (Or.inr hw0), heq.symm⟩
  · intro st m hen
    simp [pluginApplyDocChanged, hen]

/-- Witness for C4: the shifted finding in `c4StateAfter` is the image of
an original finding, and the enabled document-change path re-projects
before scheduling. -/
theorem c4_reprojection_witness :
    (∃ w0 ∈ c4State.misspelledWords ++ c4State.aiSuggestions,
      shiftedWrold = remapWord insertAtStart w0) ∧
    pluginApplyDocChanged c4State insertAtStart true =
      (updateCachedPositions insertAtStart c4State, true, true) :=
  ⟨(c4_reprojection.2.1 insertAtStart c4State).2.2 shiftedWrold (by decide),
   c4_reprojection.2.2 c4State insertAtStart rfl⟩

/-! ## Claim C7 — dedup semantics -/

/-- C7: `dedupe` treats two findings as duplicates exactly when their
`(range.from, range.to, text)` triples (`dedupeKey`) are identical; it
keeps the first occurrence in input order (every survivor is the
`find?`-first element of its key and every input key keeps a surviving
representative), preserves the relative order of the survivors (the
output is a sublist of the input), and the output contains no two
findings with identical triples.  Both merge routines are this dedupe
applied to the concatenated input. -/
theorem c7_dedupe_semantics :
    ∀ (l : List MisspelledWord),
      (jsDedupe l).Sublist l ∧
      (jsDedupe l).Pairwise (fun a b => dedupeKey a ≠ dedupeKey b) ∧
      (∀ w ∈ jsDedupe l, l.find? (fun v => sameKey v w) = some w) ∧
      (∀ w ∈ l, ∃ u, l.find? (fun v => sameKey v w) = some u ∧
        u ∈ jsDedupe l) ∧
      (∀ r a, mergeRetextAndAiWords r a = jsDedupe (r ++ a)) ∧
      (∀ m a, mergeAllSuggestions m a =
        jsDedupe ((m.filter (fun w => !isAiSourced w)) ++ a)) := by
  intro l
  exact ⟨jsDedupe_sublist l, jsDedupe_pairwise l,
    fun w hw => jsDedupe_find?_self hw,
    fun w hw => jsDedupe_first_mem hw,
    fun r a => rfl, fun m a => rfl⟩

/-- Witness for C7 on a list with an exact duplicate: the duplicated
finding keeps its first occurrence in the deduplicated output. -/
theorem c7_dedupe_semantics_witness :
    ∃ u, c7List.find? (fun v => sameKey v tehFinding) = some u ∧
      u ∈ jsDedupe c7List :=
  (c7_dedupe_semantics c7List).2.2.2.1 tehFinding (by decide)

/-! ## Claim C8 (amended theorem) -/

/-- C8 (amended): toggling analysis off empties the finding store, emits
the zero-findings update, and renders no decorations; while disabled,
neither debounced check dispatches anything and a document change
schedules nothing.  (A result already in flight when the toggle happens
is still merged on arrival — see the counterexample.) -/
theorem c8_disable_amended :
    ∀ (st : SpellState) (analyze : String → List RetextMessage) (doc : Doc)
      (cursorPos now docSize : Int) (m : Int → Int)
      (changed : Option (List PosRange)),
      (st.options.enabled = true →
        (toggleSpellCheck st).1.options.enabled = false ∧
        (toggleSpellCheck st).1.misspelledWords = [] ∧
        (toggleSpellCheck st).2 = some ⟨false, none, [], [], []⟩ ∧
        buildDecorations (toggleSpellCheck st).1 docSize = []) ∧
      (st.options.enabled = false →
        debouncedAiGrammarCheckFire st doc cursorPos now = (st, none) ∧
        debouncedSpellCheckFire analyze st doc changed = (st, []) ∧
        pluginApplyDocChanged st m true = (st, false, false) ∧
        buildDecorations st docSize = []) := by
  intro st analyze doc cursorPos now docSize m changed
  constructor
  · intro hen
    refine ⟨?_, ?_, ?_, ?_⟩
    · simp [toggleSpellCheck, hen]
    · simp [toggleSpellCheck, hen]
    · simp [toggleSpellCheck, hen]
    · simp [toggleSpellCheck, hen, buildDecorations]
  · intro hdis
    refine ⟨?_, ?_, ?_, ?_⟩
    · simp [debouncedAiGrammarCheckFire, hdis]
    · simp [debouncedSpellCheckFire, hdis]
    · simp [pluginApplyDocChanged, hdis]
    · simp [buildDecorations, hdis]

/-- Witness for C8 (amended), discharging both guards at concrete
states: toggling the enabled `initialState` clears the store, and in the
disabled state no AI dispatch happens. -/
theorem c8_disable_amended_witness :
    (toggleSpellCheck initialState).1.misspelledWords = [] ∧
    debouncedAiGrammarCheckFire c8Disabled tehDoc 1 1000 =
      (c8Disabled, none) :=
  ⟨(c8_disable_amended initialState noAnalyze tehDoc 1 1000 20 (fun x => x)
      none).1 rfl |>.2.1,
   (c8_disable_amended c8Disabled noAnalyze tehDoc 1 1000 20 (fun x => x)
      none).2 rfl |>.1⟩

/-! ## Claim C9 — merge trust ordering -/

/-- C9: in every merged finding list, the retext part precedes the AI
part (the merged output splits as a sublist of the retext input followed
by a sublist of the AI input), and whenever a retext finding collides
with an AI finding on `(from, to, text)`, deduplication retains the
retext one — the surviving finding with that key is never AI-sourced.
`mergeAllSuggestions` is `mergeRetextAndAiWords` applied to the non-AI
part of the store. -/
theorem c9_trust_ordering :
    ∀ (r a : List MisspelledWord),
      (∀ w ∈ r, isAiSourced w = false) →
      (∀ w ∈ a, w.source = some WordSource.ai) →
      (∃ r1 a1, mergeRetextAndAiWords r a = r1 ++ a1 ∧
        r1.Sublist r ∧ a1.Sublist a) ∧
      (∀ w ∈ mergeRetextAndAiWords r a,
        (∃ v ∈ r, sameKey v w = true) → w.source ≠ some WordSource.ai) ∧
      (∀ m, mergeAllSuggestions m a =
        mergeRetextAndAiWords (m.filter (fun w => !isAiSourced w)) a) := by
  intro r a hr _ha
  refine ⟨?_, ?_, fun m => rfl⟩
  · exact List.sublist_append_iff.mp (jsDedupe_sublist (r ++ a))
  · intro w hw hex
    have hfind : (r ++ a).find? (fun v => sameKey v w) = some w :=
      jsDedupe_find?_self hw
    obtain ⟨v, hv, hsk⟩ := hex
    have hrsome : (r.find? (fun v => sameKey v w)).isSome :=
      List.find?_isSome.mpr ⟨v, hv, hsk⟩
    obtain ⟨u, hu⟩ := Option.isSome_iff_exists.mp hrsome
    rw [List.find?_append, hu, Option.or_some] at hfind
    have huw : u = w := Option.some.inj hfind
    subst huw
    have humem : u ∈ r := List.mem_of_find?_eq_some hu
    have hfalse := hr u humem
    intro heq
    rw [isAiSourced, heq] at hfalse
    simp at hfalse

/-- Witness for C9: with a retext finding and an AI finding sharing the
key `(1, 4, "Teh")`, the merge keeps the retext one. -/
theorem c9_trust_ordering_witness :
    mergeRetextAndAiWords [clashRetext] [tehFinding] = [clashRetext] ∧
    clashRetext.source ≠ some WordSource.ai :=
  ⟨by decide,
   (c9_trust_ordering [clashRetext] [tehFinding] (by decide)
     (by decide)).2.1 clashRetext (by decide)
     ⟨clashRetext, by decide, by decide⟩⟩

/-! ## Claim C6 (amended theorem) -/

theorem isCodeNode_false_of_paragraphLike {n : DocNode}
    (h : isParagraphLike n = true) : isCodeNode n = false := by
  have h2 : n.name = "paragraph" ∨ n.name = "heading" ∨
      n.name = "blockquote" := by
    simpa [isParagraphLike, or_assoc] using h
  unfold isCodeNode
  rcases h2 with h2 | h2 | h2 <;> rw [h2] <;> decide

/-- A paragraph that intersects no changed range and whose hash matches
its cache entry never lands in `paragraphsToCheck`, and (whenever it is
in the document) its cached findings are collected among the unchanged
paragraphs. -/
theorem collectParagraphs_cache_hit
    (st : SpellState) (ranges : List PosRange) (n : DocNode)
    (entry : ParagraphCacheEntry)
    (hpara : isParagraphLike n = true)
    (htrim : jsTrim n.text ≠ "")
    (hint : intersectsChange ranges n.pos (n.pos + n.nodeSize) = false)
    (hget : mapGet st.paragraphCache (cacheKeyOf n) = some entry)
    (hhash : entry.hash = hashText n.text) :
    ∀ nodes : List DocNode,
      n ∉ (collectParagraphs st (some ranges) nodes).1 ∧
      (n ∈ nodes →
        (n.pos, entry.misspelledWords) ∈
          (collectParagraphs st (some ranges) nodes).2) := by
  intro nodes
  induction nodes with
  | nil => simp [collectParagraphs]
  | cons e rest ih =>
    by_cases he : e = n
    · subst he
      have hcode := isCodeNode_false_of_paragraphLike hpara
      have hbang : (!intersectsChange ranges e.pos (e.pos + e.nodeSize)) =
          true := by rw [hint]; rfl
      have hbeq : (entry.hash == hashText e.text) = true := by
        rw [hhash]; simp
      constructor
      · intro hmem
        simp [collectParagraphs, hcode, hpara, htrim, hbang, hget,
          hbeq] at hmem
        exact ih.1 hmem
      · intro _
        simp [collectParagraphs, hcode, hpara, htrim, hbang, hget, hbeq]
    · have hne : n ≠ e := fun h => he h.symm
      constructor
      · intro hmem
        simp only [collectParagraphs] at hmem
        repeat' split at hmem
        all_goals
          first
            | exact ih.1 hmem
            | exact (List.mem_cons.mp hmem).elim (fun h => absurd h hne)
                (fun h => ih.1 h)
      · intro hmemn
        have hrest : n ∈ rest := by
          rcases List.mem_cons.mp hmemn with h | h
          · exact absurd h.symm he
          · exact h
        have hacc := ih.2 hrest
        simp only [collectParagraphs]
        repeat' split
        all_goals
          first
            | exact hacc
            | exact List.mem_cons_of_mem _ hacc

/-- C6 (amended): on a document change, a block that intersects *none*
of the changed ranges and whose content hash matches its cache entry is
resolved from the cache — it is never dispatched to the retext
processor, its `(pos, findings)` pair is collected among the unchanged
paragraphs, and every cached finding is reused in the result.  (A block
that intersects a changed range is re-dispatched even when its hash is
unchanged — see the counterexample — and the AI path additionally
requires its cache entry to be younger than 5 minutes.) -/
theorem c6_cache_hit_amended :
    ∀ (analyze : String → List RetextMessage) (st : SpellState) (doc : Doc)
      (ranges : List PosRange) (n : DocNode) (entry : ParagraphCacheEntry),
      n ∈ doc.nodes →
      isParagraphLike n = true →
      jsTrim n.text ≠ "" →
      intersectsChange ranges n.pos (n.pos + n.nodeSize) = false →
      mapGet st.paragraphCache (cacheKeyOf n) = some entry →
      entry.hash = hashText n.text →
      n ∉ (performSpellCheck analyze st doc (some ranges)).2.2 ∧
      (n.pos, entry.misspelledWords) ∈
        (collectParagraphs st (some ranges) doc.nodes).2 ∧
      ∀ w ∈ entry.misspelledWords,
        w ∈ (performSpellCheck analyze st doc (some ranges)).1 := by
  intro analyze st doc ranges n entry hmem hpara htrim hint hget hhash
  have hmain := collectParagraphs_cache_hit st ranges n entry hpara htrim hint
    hget hhash doc.nodes
  refine ⟨?_, hmain.2 hmem, ?_⟩
  · simpa [performSpellCheck] using hmain.1
  · intro w hw
    have hpair := hmain.2 hmem
    simp only [performSpellCheck]
    apply List.mem_append.mpr
    left
    exact (mem_foldl_append (fun p => p.2)
      (collectParagraphs st (some ranges) doc.nodes).2 [] w).mpr
      (Or.inr ⟨(n.pos, entry.misspelledWords), hpair, hw⟩)

/-- Witness for C6 (amended): the cached paragraph of `c6Doc` is not
dispatched when the changed range lies elsewhere, and its cached
findings are collected. -/
theorem c6_cache_hit_amended_witness :
    c6Node ∉ (performSpellCheck noAnalyze c6State c6Doc
      (some [c6FarRange])).2.2 ∧
    (c6Node.pos, c6Entry.misspelledWords) ∈
      (collectParagraphs c6State (some [c6FarRange]) c6Doc.nodes).2 :=
  ⟨(c6_cache_hit_amended noAnalyze c6State c6Doc [c6FarRange] c6Node c6Entry
      (by decide) (by decide) (by decide) (by decide) (by decide)
      (by decide)).1,
   (c6_cache_hit_amended noAnalyze c6State c6Doc [c6FarRange] c6Node c6Entry
      (by decide) (by decide) (by decide) (by decide) (by decide)
      (by decide)).2.1⟩

end Wordwise
